import Mathlib

/-!
Verification development for the `yt_shadowing` repository's practice-video
assembly pipeline (`src/modules/generate_repeat_video.py` and
`src/backend/core/generator.py`, class `RepeatVideoGenerator`).

Every definition below is a shallow embedding of the corresponding Python
code; doc comments name the source location each definition is taken from.
-/

namespace YtShadowing

/-! ### Python `str.strip()` model

`_prepare_subtitles` and `_generate_edge_tts` call `sub.text.strip()`.
Python's `str.strip()` removes leading and trailing whitespace; the
whitespace characters relevant here are the ASCII ones (space, tab,
newline, carriage return, vertical tab, form feed). -/

/-- Whitespace test used by Python `str.strip()` (ASCII range). -/
def isPyWs (c : Char) : Bool :=
  c == ' ' || c == '\t' || c == '\n' || c == '\r' ||
    c == Char.ofNat 11 || c == Char.ofNat 12

/-- Drop leading whitespace (left half of `str.strip()`). -/
def stripLeft (l : List Char) : List Char := l.dropWhile isPyWs

/-- Drop trailing whitespace (right half of `str.strip()`). -/
def stripRight (l : List Char) : List Char :=
  (l.reverse.dropWhile isPyWs).reverse

/-- Python `str.strip()` on the underlying character list. -/
def pyStripL (l : List Char) : List Char := stripRight (stripLeft l)

/-- Python `str.strip()` on strings, as used by `sub.text.strip()`. -/
def pyStrip (s : String) : String := ⟨pyStripL s.data⟩

/-! ### Cue model

`pysrt` parses an SRT file into `SubRipItem`s carrying a 1-based index,
start/end `SubRipTime`s (hours, minutes, seconds, milliseconds) and a text
(`generate_repeat_video.py`, use of `sub.index`, `sub.start`, `sub.end`,
`sub.text`). -/

/-- `pysrt.SubRipTime`: hours, minutes, seconds, milliseconds components. -/
structure SrtTime where
  hours : Nat
  minutes : Nat
  seconds : Nat
  milliseconds : Nat
deriving DecidableEq

/-- One parsed caption entry (`pysrt.SubRipItem`). -/
structure Cue where
  index : Nat
  start : SrtTime
  stop : SrtTime
  text : String
deriving DecidableEq

/-! #### IEEE binary64 model

`_generate_edge_tts` computes `start_time` and `int(start_time * 1000)` in
Python floats (IEEE binary64).  A finite double is a dyadic rational; each
operation rounds its exact result to the nearest double, ties to even.
`rne`/`normDown`/`normUp`/`roundB64` model that rounding exactly on ℚ for
the nonnegative values occurring here (the loop fuel covers every binary
exponent down to 2^(-1100), far below any double produced by this code). -/

/-- Round a rational to the nearest integer, ties to even (the rounding of
the IEEE significand). -/
def rne (m : ℚ) : ℤ :=
  let f := ⌊m⌋
  if m - f < 1/2 then f
  else if (1 : ℚ)/2 < m - f then f + 1
  else if f % 2 = 0 then f else f + 1

/-- Halve the significand until it is below 2^53 (fuel-bounded). -/
def normDown : Nat → ℚ × ℤ → ℚ × ℤ
  | 0, p => p
  | fuel + 1, (m, e) =>
    if (2 : ℚ)^53 ≤ m then normDown fuel (m / 2, e + 1) else (m, e)

/-- Double the significand until it reaches 2^52 (fuel-bounded). -/
def normUp : Nat → ℚ × ℤ → ℚ × ℤ
  | 0, p => p
  | fuel + 1, (m, e) =>
    if m < (2 : ℚ)^52 then normUp fuel (m * 2, e - 1) else (m, e)

/-- Round a nonnegative rational to the nearest IEEE binary64 value
(round to nearest, ties to even): normalize to a significand in
`[2^52, 2^53)`, round it to an integer, and scale back. -/
def roundB64 (q : ℚ) : ℚ :=
  if 0 < q then
    let p := normUp 1200 (normDown 1200 (q, 0))
    ((rne p.1 : ℚ)) * (2 : ℚ) ^ p.2
  else 0

/-- The exact integer `sub.start.hours * 3600 + sub.start.minutes * 60 +
sub.start.seconds` (Python int arithmetic, exact). -/
def intSeconds (t : SrtTime) : ℕ :=
  3600 * t.hours + 60 * t.minutes + t.seconds

/-- The cue start expressed in whole milliseconds (the spec-side exact
value the claim talks about). -/
def totalMs (t : SrtTime) : ℕ := 1000 * intSeconds t + t.milliseconds

/-- `start_time` as CPython evaluates `h*3600 + m*60 + s + ms/1000`: the
integer part is exact, `ms / 1000` is a correctly rounded float division,
the int is converted to double and the addition rounds once more. -/
def startTimeF (t : SrtTime) : ℚ :=
  roundB64 (roundB64 (intSeconds t) +
    roundB64 ((t.milliseconds : ℚ) / 1000))

/-- The `adelay` argument computed in `_generate_edge_tts`:
`int(segment['start_time'] * 1000)` — the float product rounds, then
Python `int()` truncates toward zero (floor, as the value is
nonnegative). -/
def delayMsOf (t : SrtTime) : ℤ := ⌊roundB64 (startTimeF t * 1000)⌋

/-! ### Subtitle modes and the cue transformer

`_prepare_subtitles` (identical in `src/modules/generate_repeat_video.py`
lines 281-342 and `src/backend/core/generator.py` lines 264-325) rewrites
each cue's text according to the mode string `no_subtitle` / `en` / `ko` /
`en_ko` (the spec's `NONE` / `SOURCE` / `TARGET` / `SOURCE_AND_TARGET`). -/

/-- The closed set of subtitle modes. -/
inductive SubtitleMode where
  | no_subtitle
  | en
  | ko
  | en_ko
deriving DecidableEq

/-- The translation lookup (`korean_translation` dict): `none` models both
a missing dict and a missing key, matching the code's
`if korean_translation and english_text in korean_translation`. -/
abbrev Lookup := String → Option String

/-- Per-cue text rewrite of `_prepare_subtitles`:
`english_text = sub.text.strip()`; for `en` the stripped text, for `ko`
the translation when present else the stripped text, for `en_ko` the
two-line `f-string` `english\ntranslation` when present else the stripped
text.  (`no_subtitle` never reaches this per-cue code.) -/
def transformCueText (mode : SubtitleMode) (tr : Lookup) (text : String) :
    String :=
  let english := pyStrip text
  match mode with
  | .no_subtitle => text
  | .en => english
  | .ko =>
      match tr english with
      | some k => k
      | none => english
  | .en_ko =>
      match tr english with
      | some k => english ++ "\n" ++ k
      | none => english

/-- List-level transformer of `_prepare_subtitles`: for `no_subtitle` an
empty subtitle file is written (empty cue list); otherwise each cue is
copied with index/start/end preserved and text rewritten. -/
def transform (cues : List Cue) (mode : SubtitleMode) (tr : Lookup) :
    List Cue :=
  match mode with
  | .no_subtitle => []
  | m => cues.map (fun c => { c with text := transformCueText m tr c.text })

/-! ### Repetition planner

`generate_repeat_video` (modules file lines 133-142, backend file lines
116-127) pads the configured mode list with
`while len(subtitle_modes) < repeat_count: subtitle_modes.append(subtitle_modes[-1])`
and then reads `subtitle_modes[i] if i < len(subtitle_modes) else "en_ko"`
for each pass.  On an empty list the first `subtitle_modes[-1]` raises
`IndexError` (caught by the outer `except`, failing the run): modeled by
`none`. -/

/-- One step of the `while` loop per remaining iteration: each iteration
appends one element, so the loop body runs exactly `rc - modes.length`
times.  `none` models the `IndexError` raised by `subtitle_modes[-1]` on
an empty list. -/
def padModesGo : Nat → List SubtitleMode → Option (List SubtitleMode)
  | 0, modes => some modes
  | n + 1, modes =>
    match modes.getLast? with
    | none => none
    | some last => padModesGo n (modes ++ [last])

/-- The `while len(subtitle_modes) < repeat_count` padding loop. -/
def padModesLoop (modes : List SubtitleMode) (rc : Nat) :
    Option (List SubtitleMode) :=
  padModesGo (rc - modes.length) modes

/-- One pass descriptor: index, subtitle mode, and whether TTS audio is
synthesized for it (`_create_segment`:
`if segment_index == 0 and self.config.get("tts", {}).get("provider")`). -/
structure PassSpec where
  passIndex : Nat
  mode : SubtitleMode
  synthesizeAudio : Bool
deriving DecidableEq

/-- The audio-synthesis condition of `_create_segment` (modules file line
272, backend file line 255): index 0 and a truthy configured provider. -/
def synthFlag (ttsConfigured : Bool) (i : Nat) : Bool :=
  decide (i = 0) && ttsConfigured

/-- The repetition plan produced by `generate_repeat_video`: the padded
mode list read positionally for `i in range(repeat_count)`, with the
`else "en_ko"` fallback of the mode read. -/
def buildPlan (rc : Nat) (modes : List SubtitleMode) (ttsConfigured : Bool) :
    Option (List PassSpec) :=
  (padModesLoop modes rc).map (fun padded =>
    (List.range rc).map (fun i =>
      ⟨i, padded.getD i .en_ko, synthFlag ttsConfigured i⟩))

/-! ### Orchestrator control flow

`generate_repeat_video` main loop (modules file lines 141-171, backend file
lines 126-156): per pass, `_create_segment` returns a path or `None`; a
path is appended, `None` is only logged; after each non-final pass a focus
segment is appended when it rendered; finally the collected segments are
concatenated — success iff the list is nonempty and concatenation
succeeded. -/

/-- External render outcomes for one run: per-pass segment render, per-gap
focus render, and the concatenation call. -/
structure RenderEnv where
  renderPass : Nat → Option String
  renderFocus : Nat → Option String
  concatOk : List String → Bool

/-- The `segments` list built by the main loop of `generate_repeat_video`. -/
def collectSegments (env : RenderEnv) (rc : Nat) : List String :=
  (List.range rc).foldl
    (fun segs i =>
      let segs1 :=
        match env.renderPass i with
        | some p => segs ++ [p]
        | none => segs
      if i < rc - 1 then
        match env.renderFocus i with
        | some f => segs1 ++ [f]
        | none => segs1
      else segs1)
    []

/-- Result of `generate_repeat_video`: `True` iff `segments` is nonempty
and `_concatenate_segments` succeeded. -/
def generateResult (env : RenderEnv) (rc : Nat) : Bool :=
  let segs := collectSegments env rc
  decide (segs ≠ []) && env.concatOk segs

/-! ### Audio overlay plan

`_generate_edge_tts` iterates `for i, sub in enumerate(subtitles)`, takes
`text = sub.text.strip()`, computes `start_time`, synthesizes one clip per
cue, and later delays each clip by `int(start_time * 1000)` ms.  There is
no filtering on the text: every cue gets a clip. -/

/-- One planned overlay clip (`segment_files` entry plus its `adelay`). -/
structure OverlayClip where
  cueIndex : Nat
  text : String
  clipDelayMs : ℤ
deriving DecidableEq

/-- The `for i, sub in enumerate(subtitles)` loop of `_generate_edge_tts`,
starting at index `i`. -/
def buildOverlayClipsFrom : Nat → List Cue → List OverlayClip
  | _, [] => []
  | i, c :: rest =>
    ⟨i, pyStrip c.text, delayMsOf c.start⟩ :: buildOverlayClipsFrom (i + 1) rest

/-- The full overlay clip plan of `_generate_edge_tts`. -/
def buildOverlayClips (cues : List Cue) : List OverlayClip :=
  buildOverlayClipsFrom 0 cues

/-! ### Concatenation manifest

`_concatenate_segments` (modules file lines 404-410, backend file lines
397-403) writes one `file '<absolute path>'` line per segment, iterating
the segment list in order.  Paths are modeled as the strings handed in
(already absolute). -/

/-- A single-quote character (39), used in the manifest line. -/
def sQuote : String := String.singleton (Char.ofNat 39)

/-- One manifest line: `file <quote>path<quote>`. -/
def manifestLine (path : String) : String :=
  "file " ++ sQuote ++ path ++ sQuote

/-- The concat manifest written by `_concatenate_segments`. -/
def concatManifest (segments : List String) : List String :=
  segments.map manifestLine

/-! ### Temp-file registration in `_generate_edge_tts` (modules variant)

`src/modules/generate_repeat_video.py` lines 547-592: the function creates
`silent_audio = Path(tempfile.mktemp(suffix='.silent.wav'))` and one
`segment_{i:04d}.wav` per cue in a fresh temp directory, but — unlike every
other creation site in the class, and unlike the same function in
`src/backend/core/generator.py` (lines 562-563, 590-591) — never appends
them to `self.temp_files`.  `_cleanup_temp_files` deletes only registered
files. -/

/-- Temp files created by the modules-variant `_generate_edge_tts` for
`n` cues, each paired with whether the code registers it in
`self.temp_files` (it registers none of them). -/
def edgeTtsTempFiles (n : Nat) : List (String × Bool) :=
  ("silent.wav", false) ::
    (List.range n).map (fun i => ("segment_" ++ toString i ++ ".wav", false))

/-- The claim's registration property: every temp file created during
audio synthesis is registered at creation time. -/
def edgeTtsAllRegistered (n : Nat) : Bool :=
  (edgeTtsTempFiles n).all (fun e => e.2)

/-! ### Focus interlude message selection

`_create_focus_segment`.  Backend variant (`src/backend/core/generator.py`
lines 337-352): `focus_messages = config.get("practice_format", {})
.get("focus_message", [<4 defaults>])`; if that list is truthy, the message
is `focus_messages[segment_index % len(focus_messages)]`; only an
explicitly configured empty list reaches the 2-message alternation.
Modules variant (`src/modules/generate_repeat_video.py` lines 354-363):
always the 2-message alternation.  Both render a `d=2` (2-second) clip. -/

/-- The 4-message default of the backend `config.get` call. -/
def defaultFocusMessages : List String :=
  ["다시 집중!", "기억나나요?", "따라 말해보세요!", "이제 해볼까요?"]

/-- The 2-message alternation (modules variant, and backend else-branch). -/
def focusMessageModules (segmentIndex : Nat) : String :=
  if segmentIndex % 2 = 0 then "다시 집중!" else "기억나나요?"

/-- Backend focus-message selection; `configured = none` models a config
without a `practice_format.focus_message` entry. -/
def focusMessage (configured : Option (List String)) (segmentIndex : Nat) :
    String :=
  let focusMessages := configured.getD defaultFocusMessages
  if focusMessages ≠ [] then
    focusMessages.getD (segmentIndex % focusMessages.length) ""
  else
    focusMessageModules segmentIndex

/-- Duration argument of the focus clip's ffmpeg color source
(`color=c=black:s=1920x1080:d=2`), in seconds. -/
def focusClipDurationSeconds : Nat := 2

/-! ### Configuration state touched by planning

`generate_repeat_video` pads `subtitle_modes` — the very list object stored
at `config["subtitle_mode"]` — in place via `.append`; the mutable config
is modeled as explicit state. -/

/-- The `subtitle_style` sub-dictionary (read-only during planning). -/
structure SubtitleStyle where
  font : String
  fontsize : Nat
  posX : Nat
  posY : Nat
  shadow : Bool
  bgcolor : String
deriving DecidableEq

/-- The configuration fields of `RepeatVideoGenerator.config` involved in
a run. -/
structure GeneratorConfig where
  repeat_count : Nat
  subtitle_mode : List SubtitleMode
  subtitle_style : SubtitleStyle
  tts_provider : Option String
deriving DecidableEq

/-- The state of `config` after the padding loop of
`generate_repeat_video`: on an `IndexError` (empty list, caught by the
outer `except`) the list is left untouched, otherwise it holds the padded
list.  No other field is written. -/
def planningUpdate (c : GeneratorConfig) : GeneratorConfig :=
  match padModesLoop c.subtitle_mode c.repeat_count with
  | some padded => { c with subtitle_mode := padded }
  | none => c

/-! ### Concrete example inputs used in counterexamples and witnesses -/

/-- Default cue for positional reads (`List.getD`). -/
def defaultCue : Cue := ⟨0, ⟨0, 0, 0, 0⟩, ⟨0, 0, 0, 0⟩, ""⟩

/-- Default overlay clip for positional reads (`List.getD`). -/
def defaultClip : OverlayClip := ⟨0, "", 0⟩

/-- Default pass spec for positional reads (`List.getD`). -/
def defaultPass : PassSpec := ⟨0, SubtitleMode.en_ko, false⟩

/-- The default subtitle style of `_load_config` (backend variant). -/
def exStyle : SubtitleStyle := ⟨"Arial", 48, 50, 600, true, "#00000080"⟩

/-- A run in which rendering pass 0 fails and everything else succeeds. -/
def cexRenderEnv : RenderEnv :=
  ⟨fun i => if i = 0 then none else some "pass1.mp4",
   fun _ => some "focus0.mp4",
   fun _ => true⟩

/-- A cue whose text is empty. -/
def cueEmptyText : Cue := ⟨1, ⟨0, 0, 0, 0⟩, ⟨0, 0, 1, 0⟩, ""⟩

/-- A cue starting at 2.5 seconds (the spec's example). -/
def cueAt2p5 : Cue := ⟨1, ⟨0, 0, 2, 500⟩, ⟨0, 0, 4, 0⟩, "Hello"⟩

/-- A chained lookup: the translation of `a` is itself a key. -/
def chainLookup : Lookup := fun s =>
  if s = "a" then some "b" else if s = "b" then some "c" else none

/-- A well-behaved single-entry lookup. -/
def goodLookupEx : Lookup := fun s => if s = "a" then some "b" else none

/-- A cue whose text is the key of `chainLookup` / `goodLookupEx`. -/
def cueA : Cue := ⟨1, ⟨0, 0, 0, 0⟩, ⟨0, 0, 1, 0⟩, "a"⟩

/-- The empty translation lookup (no dict supplied). -/
def noLookup : Lookup := fun _ => none

/-- A cue with surrounding whitespace in its text. -/
def cueWs : Cue := ⟨1, ⟨0, 0, 0, 0⟩, ⟨0, 0, 1, 0⟩, " hi "⟩

/-- A cue whose text is whitespace only. -/
def cueSp : Cue := ⟨2, ⟨0, 0, 1, 0⟩, ⟨0, 0, 2, 0⟩, " "⟩

/-- A config whose `subtitle_mode` list is empty and shorter than
`repeat_count`. -/
def cfgEmptyModes : GeneratorConfig := ⟨2, [], exStyle, none⟩

/-- A config whose `subtitle_mode` list is nonempty and shorter than
`repeat_count`. -/
def cfgShortModes : GeneratorConfig :=
  ⟨3, [SubtitleMode.no_subtitle, SubtitleMode.en_ko], exStyle,
    some "edge-tts"⟩

/-! ## Helper theorems -/

theorem dropWhile_head_not (p : Char → Bool) (l : List Char) (c : Char)
    (h : (l.dropWhile p).head? = some c) : p c = false := by
  have := List.head?_dropWhile_not p l
  rw [h] at this
  exact this

theorem dropWhile_eq_self_of_head (p : Char → Bool) (l : List Char)
    (h : ∀ c, l.head? = some c → p c = false) : l.dropWhile p = l := by
  cases l with
  | nil => rfl
  | cons a t =>
    have ha : p a = false := h a rfl
    simp [List.dropWhile_cons, ha]

theorem dropWhile_suffix_decomp (p : Char → Bool) (l : List Char) :
    ∃ s, s ++ l.dropWhile p = l :=
  ⟨l.takeWhile p, List.takeWhile_append_dropWhile p l⟩

theorem head_append_left {l m : List Char} {c : Char}
    (h : l.head? = some c) : (l ++ m).head? = some c := by
  cases l with
  | nil => simp at h
  | cons a t => simp_all

/-- A list whose head and last characters are not whitespace is unchanged
by `pyStripL`. -/
theorem pyStripL_eq_self (l : List Char)
    (h1 : ∀ c, l.head? = some c → isPyWs c = false)
    (h2 : ∀ c, l.getLast? = some c → isPyWs c = false) :
    pyStripL l = l := by
  have hl : stripLeft l = l := dropWhile_eq_self_of_head _ _ h1
  have hr : l.reverse.dropWhile isPyWs = l.reverse := by
    apply dropWhile_eq_self_of_head
    intro c hc
    rw [List.head?_reverse] at hc
    exact h2 c hc
  unfold pyStripL stripRight
  rw [hl, hr, List.reverse_reverse]

/-- The head of a stripped list is not whitespace. -/
theorem pyStripL_head (l : List Char) (c : Char)
    (h : (pyStripL l).head? = some c) : isPyWs c = false := by
  obtain ⟨s, hs⟩ := dropWhile_suffix_decomp isPyWs (stripLeft l).reverse
  have hpref : pyStripL l ++ s.reverse = stripLeft l := by
    have := congrArg List.reverse hs
    simpa [pyStripL, stripRight] using this
  have hhead : (stripLeft l).head? = some c := by
    rw [← hpref]
    exact head_append_left h
  exact dropWhile_head_not isPyWs l c hhead

/-- The last character of a stripped list is not whitespace. -/
theorem pyStripL_getLast (l : List Char) (c : Char)
    (h : (pyStripL l).getLast? = some c) : isPyWs c = false := by
  have h2 : ((stripLeft l).reverse.dropWhile isPyWs).head? = some c := by
    have : (pyStripL l).getLast? =
        ((stripLeft l).reverse.dropWhile isPyWs).head? := by
      simp [pyStripL, stripRight]
    rw [← this]
    exact h
  exact dropWhile_head_not isPyWs (stripLeft l).reverse c h2

/-- `str.strip()` is idempotent. -/
theorem pyStripL_idem (l : List Char) : pyStripL (pyStripL l) = pyStripL l :=
  pyStripL_eq_self _ (pyStripL_head l) (pyStripL_getLast l)

theorem pyStrip_idem (s : String) : pyStrip (pyStrip s) = pyStrip s := by
  unfold pyStrip
  exact congrArg String.mk (pyStripL_idem s.data)

theorem stripLeft_eq_self_of_pyStripL (l : List Char) (h : pyStripL l = l) :
    stripLeft l = l := by
  obtain ⟨s, hs⟩ := dropWhile_suffix_decomp isPyWs l
  obtain ⟨s2, hs2⟩ := dropWhile_suffix_decomp isPyWs (stripLeft l).reverse
  have hlen1 : s.length + (stripLeft l).length = l.length := by
    have := congrArg List.length hs
    simpa [stripLeft] using this
  have hlen2 : s2.length +
      ((stripLeft l).reverse.dropWhile isPyWs).length =
      (stripLeft l).length := by
    have := congrArg List.length hs2
    simpa using this
  have hlen3 : (pyStripL l).length =
      ((stripLeft l).reverse.dropWhile isPyWs).length := by
    simp [pyStripL, stripRight]
  have hlen4 : (pyStripL l).length = l.length := congrArg List.length h
  have hs0 : s.length = 0 := by omega
  have : s = [] := List.eq_nil_of_length_eq_zero hs0
  subst this
  simpa [stripLeft] using hs

theorem head_not_ws_of_dropWhile_eq (l : List Char)
    (h : l.dropWhile isPyWs = l) :
    ∀ c, l.head? = some c → isPyWs c = false := by
  intro c hc
  cases l with
  | nil => simp at hc
  | cons a t =>
    have hca : a = c := by simpa using hc
    rw [← hca]
    by_contra hws
    have hws' : isPyWs a = true := by
      cases hcc : isPyWs a with
      | false => exact absurd hcc hws
      | true => rfl
    rw [List.dropWhile_cons_of_pos hws'] at h
    obtain ⟨s, hs⟩ := dropWhile_suffix_decomp isPyWs t
    rw [h] at hs
    have := congrArg List.length hs
    simp at this
    omega

theorem getLast_not_ws_of_pyStripL_eq (l : List Char) (h : pyStripL l = l) :
    ∀ c, l.getLast? = some c → isPyWs c = false := by
  intro c hc
  have h1 : stripLeft l = l := stripLeft_eq_self_of_pyStripL l h
  have h2 : stripRight l = l := by
    have : pyStripL l = stripRight l := by rw [pyStripL, h1]
    rw [← this, h]
  have h3 : l.reverse.dropWhile isPyWs = l.reverse := by
    have := congrArg List.reverse h2
    simpa [stripRight] using this
  have hc' : l.reverse.head? = some c := by
    rw [List.head?_reverse]
    exact hc
  exact head_not_ws_of_dropWhile_eq l.reverse h3 c hc'

theorem head_not_ws_of_pyStripL_eq (l : List Char) (h : pyStripL l = l) :
    ∀ c, l.head? = some c → isPyWs c = false := by
  have h1 : stripLeft l = l := stripLeft_eq_self_of_pyStripL l h
  exact head_not_ws_of_dropWhile_eq l h1

theorem data_pyStripL_of_pyStrip_eq {s : String} (h : pyStrip s = s) :
    pyStripL s.data = s.data := by
  have := congrArg String.data h
  simpa [pyStrip] using this

theorem string_mk_data (s : String) : String.mk s.data = s := by
  cases s
  rfl

/-- Gluing two already-stripped nonempty strings with a newline between
them yields a string that `str.strip()` leaves unchanged. -/
theorem pyStrip_append_middle (e v : String) (he : pyStrip e = e)
    (hv : pyStrip v = v) (hne : e ≠ "") (hnv : v ≠ "") :
    pyStrip (e ++ "\n" ++ v) = e ++ "\n" ++ v := by
  have hde : e.data ≠ [] := by
    intro hnil
    apply hne
    rw [← string_mk_data e, hnil]
  have hdv : v.data ≠ [] := by
    intro hnil
    apply hnv
    rw [← string_mk_data v, hnil]
  have hdata : (e ++ "\n" ++ v).data = e.data ++ '\n' :: v.data := by
    simp [String.data_append]
  have hstrip : pyStripL (e.data ++ '\n' :: v.data) =
      e.data ++ '\n' :: v.data := by
    apply pyStripL_eq_self
    · intro c hc
      obtain ⟨a, t, hat⟩ := List.exists_cons_of_ne_nil hde
      have hca : a = c := by
        rw [hat] at hc
        simpa using hc
      rw [← hca]
      apply head_not_ws_of_pyStripL_eq e.data (data_pyStripL_of_pyStrip_eq he)
      rw [hat]
      rfl
    · intro c hc
      obtain ⟨cv, hcv⟩ : ∃ cv, v.data.getLast? = some cv := by
        cases hvv : v.data.getLast? with
        | none => exact absurd (List.getLast?_eq_none_iff.mp hvv) hdv
        | some x => exact ⟨x, rfl⟩
      have hlast : (e.data ++ '\n' :: v.data).getLast? = some cv := by
        rw [List.getLast?_append]
        have : ('\n' :: v.data).getLast? = some cv := by
          have : ('\n' :: v.data) = ['\n'] ++ v.data := rfl
          rw [this, List.getLast?_append, hcv]
          rfl
        rw [this]
        rfl
      have hccv : c = cv := by
        rw [hlast] at hc
        exact (Option.some_inj.mp hc).symm
      rw [hccv]
      exact getLast_not_ws_of_pyStripL_eq v.data
        (data_pyStripL_of_pyStrip_eq hv) cv hcv
  calc pyStrip (e ++ "\n" ++ v)
      = ⟨pyStripL (e ++ "\n" ++ v).data⟩ := rfl
    _ = ⟨(e ++ "\n" ++ v).data⟩ := by rw [hdata, hstrip]
    _ = e ++ "\n" ++ v := string_mk_data _

theorem rne_err (m : ℚ) : |(rne m : ℚ) - m| ≤ 1/2 := by
  have hf1 : (⌊m⌋ : ℚ) ≤ m := Int.floor_le m
  have hf2 : m < ⌊m⌋ + 1 := Int.lt_floor_add_one m
  unfold rne
  by_cases h1 : m - ⌊m⌋ < 1/2
  · simp only [h1, if_true]
    rw [abs_le]
    constructor <;> linarith
  · simp only [h1, if_false]
    by_cases h2 : (1 : ℚ)/2 < m - ⌊m⌋
    · simp only [h2, if_true]
      push_cast
      rw [abs_le]
      constructor <;> linarith
    · simp only [h2, if_false]
      by_cases h3 : ⌊m⌋ % 2 = 0 <;> simp only [h3, if_true, if_false] <;>
        · push_cast
          rw [abs_le]
          constructor <;> linarith

theorem roundB64_zero : roundB64 0 = 0 := rfl

theorem normDown_id (fuel : Nat) (m : ℚ) (e : ℤ) (h : m < (2 : ℚ)^53) :
    normDown fuel (m, e) = (m, e) := by
  cases fuel with
  | zero => rfl
  | succ f =>
    have : ¬ (2 : ℚ)^53 ≤ m := not_le.mpr h
    simp [normDown, this]

theorem normUp_inv (fuel : Nat) :
    ∀ (m : ℚ) (e : ℤ),
      (normUp fuel (m, e)).1 * (2 : ℚ) ^ (normUp fuel (m, e)).2 =
        m * (2 : ℚ) ^ e := by
  induction fuel with
  | zero => intro m e; rfl
  | succ f ih =>
    intro m e
    by_cases h : m < (2 : ℚ)^52
    · simp only [normUp, h, if_true]
      rw [ih (m * 2) (e - 1)]
      have h2 : (2 : ℚ) ^ (e - 1) * 2 = (2 : ℚ) ^ e := by
        rw [← zpow_add_one₀ (two_ne_zero) (e - 1)]
        congr 1
        omega
      calc m * 2 * (2 : ℚ) ^ (e - 1) = m * ((2 : ℚ) ^ (e - 1) * 2) := by ring
        _ = m * (2 : ℚ) ^ e := by rw [h2]
    · simp [normUp, h]

theorem normUp_range (fuel : Nat) :
    ∀ (m : ℚ) (e : ℤ), 0 < m → m < (2 : ℚ)^53 →
      (2 : ℚ)^52 ≤ m * (2 : ℚ)^fuel →
      (2 : ℚ)^52 ≤ (normUp fuel (m, e)).1 ∧
        (normUp fuel (m, e)).1 < (2 : ℚ)^53 := by
  induction fuel with
  | zero =>
    intro m e _ hup hlow
    simpa using ⟨by simpa using hlow, hup⟩
  | succ f ih =>
    intro m e hpos hup hlow
    by_cases h : m < (2 : ℚ)^52
    · simp only [normUp, h, if_true]
      apply ih (m * 2) (e - 1) (by linarith)
      · calc m * 2 < (2 : ℚ)^52 * 2 := by linarith
          _ = (2 : ℚ)^53 := by norm_num
      · calc (2 : ℚ)^52 ≤ m * (2 : ℚ)^(f + 1) := hlow
          _ = m * 2 * (2 : ℚ)^f := by rw [pow_succ]; ring
    · simp only [normUp, h, if_false]
      exact ⟨not_lt.mp h, hup⟩

/-- For positive arguments in the covered range, `roundB64 q` rounds the
normalized significand: there are `m ∈ [2^52, 2^53)` and `e` with
`m * 2^e = q` and `roundB64 q = rne m * 2^e`. -/
theorem roundB64_repr (q : ℚ) (hpos : 0 < q)
    (hlow : (2 : ℚ)^(-(1100 : ℤ)) ≤ q) (hup : q < (2 : ℚ)^53) :
    ∃ (m : ℚ) (e : ℤ), m * (2 : ℚ)^e = q ∧ (2 : ℚ)^52 ≤ m ∧
      m < (2 : ℚ)^53 ∧ roundB64 q = ((rne m : ℚ)) * (2 : ℚ)^e := by
  refine ⟨(normUp 1200 (q, 0)).1, (normUp 1200 (q, 0)).2, ?_, ?_, ?_, ?_⟩
  · rw [normUp_inv 1200 q 0]
    simp
  · refine (normUp_range 1200 q 0 hpos hup ?_).1
    calc (2 : ℚ)^52 ≤ (2 : ℚ)^(-(1100 : ℤ)) * (2 : ℚ)^(1200 : ℕ) := by
          rw [← zpow_natCast (2 : ℚ) 1200,
            ← zpow_add₀ (two_ne_zero (α := ℚ))]
          norm_num
      _ ≤ q * (2 : ℚ)^(1200 : ℕ) := by
          apply mul_le_mul_of_nonneg_right hlow
          positivity
  · refine (normUp_range 1200 q 0 hpos hup ?_).2
    calc (2 : ℚ)^52 ≤ (2 : ℚ)^(-(1100 : ℤ)) * (2 : ℚ)^(1200 : ℕ) := by
          rw [← zpow_natCast (2 : ℚ) 1200,
            ← zpow_add₀ (two_ne_zero (α := ℚ))]
          norm_num
      _ ≤ q * (2 : ℚ)^(1200 : ℕ) := by
          apply mul_le_mul_of_nonneg_right hlow
          positivity
  · unfold roundB64
    rw [if_pos hpos, normDown_id 1200 q 0 hup]

theorem norm_uniq (m m' : ℚ) (e e' : ℤ)
    (h1 : (2 : ℚ)^52 ≤ m) (h2 : m < (2 : ℚ)^53)
    (h1' : (2 : ℚ)^52 ≤ m') (h2' : m' < (2 : ℚ)^53)
    (heq : m * (2 : ℚ)^e = m' * (2 : ℚ)^e') : e = e' ∧ m = m' := by
  have hz : ∀ k : ℤ, ((2 : ℚ)^k) ≠ 0 := fun k => zpow_ne_zero k two_ne_zero
  have hm'pos : (0 : ℚ) < m' := lt_of_lt_of_le (by positivity) h1'
  have hmpos : (0 : ℚ) < m := lt_of_lt_of_le (by positivity) h1
  have he : e = e' := by
    by_contra hne
    rcases lt_or_gt_of_ne hne with hlt | hgt
    · have key : m' * (2 : ℚ)^(e' - e) = m := by
        have step : m' * (2 : ℚ)^(e' - e) * (2 : ℚ)^e = m' * (2 : ℚ)^e' := by
          rw [mul_assoc, ← zpow_add₀ (two_ne_zero (α := ℚ)), sub_add_cancel]
        exact mul_right_cancel₀ (hz e) (step.trans heq.symm)
      have hfac : (2 : ℚ)^(1 : ℤ) ≤ (2 : ℚ)^(e' - e) :=
        zpow_le_zpow_right₀ (by norm_num) (by omega)
      have : (2 : ℚ)^53 ≤ m := by
        calc (2 : ℚ)^53 = (2 : ℚ)^52 * 2 := by norm_num
          _ ≤ m' * (2 : ℚ)^(e' - e) := by
              apply mul_le_mul h1' _ (by norm_num)
                (le_trans (by positivity) h1')
              simpa using hfac
          _ = m := key
      linarith
    · have key : m * (2 : ℚ)^(e - e') = m' := by
        have step : m * (2 : ℚ)^(e - e') * (2 : ℚ)^e' = m * (2 : ℚ)^e := by
          rw [mul_assoc, ← zpow_add₀ (two_ne_zero (α := ℚ)), sub_add_cancel]
        exact mul_right_cancel₀ (hz e') (step.trans heq)
      have hfac : (2 : ℚ)^(1 : ℤ) ≤ (2 : ℚ)^(e - e') :=
        zpow_le_zpow_right₀ (by norm_num) (by omega)
      have : (2 : ℚ)^53 ≤ m' := by
        calc (2 : ℚ)^53 = (2 : ℚ)^52 * 2 := by norm_num
          _ ≤ m * (2 : ℚ)^(e - e') := by
              apply mul_le_mul h1 _ (by norm_num)
                (le_trans (by positivity) h1)
              simpa using hfac
          _ = m' := key
      linarith
  refine ⟨he, ?_⟩
  rw [he] at heq
  exact mul_right_cancel₀ (hz e') heq

/-- Evaluation rule: exhibiting the normalized significand and exponent
determines `roundB64`. -/
theorem roundB64_eval (q m v : ℚ) (e : ℤ) (hpos : 0 < q)
    (hlow : (2 : ℚ)^(-(1100 : ℤ)) ≤ q) (hup : q < (2 : ℚ)^53)
    (hm : m * (2 : ℚ)^e = q) (h1 : (2 : ℚ)^52 ≤ m) (h2 : m < (2 : ℚ)^53)
    (hv : ((rne m : ℚ)) * (2 : ℚ)^e = v) :
    roundB64 q = v := by
  obtain ⟨m', e', hm', h1', h2', hr⟩ := roundB64_repr q hpos hlow hup
  obtain ⟨hee, hmm⟩ :=
    norm_uniq m' m e' e h1' h2' h1 h2 (hm'.trans hm.symm)
  rw [hr, hmm, hee, hv]

/-- Rounding to binary64 has relative error at most `2^(-53)` on the
covered range. -/
theorem roundB64_err (q : ℚ) (hlow : q = 0 ∨ (2 : ℚ)^(-(1100 : ℤ)) ≤ q)
    (hup : q < (2 : ℚ)^53) :
    |roundB64 q - q| ≤ q * (2 : ℚ)^(-(53 : ℤ)) := by
  rcases hlow with h | h
  · subst h
    simp [roundB64_zero]
  · have hpos : 0 < q := lt_of_lt_of_le (by positivity) h
    obtain ⟨m, e, hm, h1, h2, hr⟩ := roundB64_repr q hpos h hup
    have hep : (0 : ℚ) < (2 : ℚ)^e := by positivity
    have herr := rne_err m
    calc |roundB64 q - q|
        = |(rne m : ℚ) - m| * (2 : ℚ)^e := by
          rw [hr, ← hm, ← sub_mul, abs_mul, abs_of_pos hep]
      _ ≤ (1/2) * (2 : ℚ)^e :=
          mul_le_mul_of_nonneg_right herr (le_of_lt hep)
      _ = (2 : ℚ)^52 * ((2 : ℚ)^e * (2 : ℚ)^(-(53 : ℤ))) := by
          have h52 : (2 : ℚ)^(52 : ℕ) * (2 : ℚ)^(-(53 : ℤ)) = 1/2 := by
            rw [← zpow_natCast (2 : ℚ) 52,
              ← zpow_add₀ (two_ne_zero (α := ℚ))]
            norm_num
          rw [← h52]
          ring
      _ ≤ m * ((2 : ℚ)^e * (2 : ℚ)^(-(53 : ℤ))) := by
          apply mul_le_mul_of_nonneg_right h1
          positivity
      _ = q * (2 : ℚ)^(-(53 : ℤ)) := by rw [← mul_assoc, hm]

/-- At `00:00:01,001` the float pipeline yields 1000, one below the exact
1001 whole milliseconds (`1.001 * 1000 = 1000.9999999999999` in
binary64). -/
theorem delayMs_at_1p001 : delayMsOf ⟨0, 0, 1, 1⟩ = 1000 := by
  have e1 : roundB64 ((intSeconds ⟨0, 0, 1, 1⟩ : ℚ)) = 1 := by
    have h : ((intSeconds ⟨0, 0, 1, 1⟩ : ℕ) : ℚ) = 1 := by
      norm_num [intSeconds]
    rw [h]
    exact roundB64_eval 1 4503599627370496 1 (-52) (by norm_num)
      (by norm_num) (by norm_num) (by norm_num) (by norm_num)
      (by norm_num) (by norm_num [rne])
  have e2 : roundB64 (((⟨0, 0, 1, 1⟩ : SrtTime).milliseconds : ℚ) / 1000) =
      1152921504606847/1152921504606846976 := by
    have h : (((⟨0, 0, 1, 1⟩ : SrtTime).milliseconds : ℕ) : ℚ) / 1000 =
        1/1000 := by norm_num
    rw [h]
    exact roundB64_eval (1/1000) (576460752303423488/125)
      (1152921504606847/1152921504606846976) (-62) (by norm_num)
      (by norm_num) (by norm_num) (by norm_num) (by norm_num)
      (by norm_num) (by norm_num [rne])
  have e3 : startTimeF ⟨0, 0, 1, 1⟩ =
      2254051613498933/2251799813685248 := by
    unfold startTimeF
    rw [e1, e2]
    exact roundB64_eval _ (1154074426111453823/256)
      (2254051613498933/2251799813685248) (-52) (by norm_num)
      (by norm_num) (by norm_num) (by norm_num) (by norm_num)
      (by norm_num) (by norm_num [rne])
  have e4 : roundB64 ((2254051613498933/2251799813685248 : ℚ) * 1000) =
      8804889115230207/8796093022208 :=
    roundB64_eval _ (281756451687366625/32)
      (8804889115230207/8796093022208) (-43) (by norm_num)
      (by norm_num) (by norm_num) (by norm_num) (by norm_num)
      (by norm_num) (by norm_num [rne])
  unfold delayMsOf
  rw [e3, e4]
  norm_num

/-- At `00:00:02,500` every intermediate is exactly representable, so the
float pipeline yields exactly 2500. -/
theorem delayMs_at_2p5 : delayMsOf ⟨0, 0, 2, 500⟩ = 2500 := by
  have e1 : roundB64 ((intSeconds ⟨0, 0, 2, 500⟩ : ℚ)) = 2 := by
    have h : ((intSeconds ⟨0, 0, 2, 500⟩ : ℕ) : ℚ) = 2 := by
      norm_num [intSeconds]
    rw [h]
    exact roundB64_eval 2 4503599627370496 2 (-51) (by norm_num)
      (by norm_num) (by norm_num) (by norm_num) (by norm_num)
      (by norm_num) (by norm_num [rne])
  have e2 : roundB64 (((⟨0, 0, 2, 500⟩ : SrtTime).milliseconds : ℚ) / 1000) =
      1/2 := by
    have h : (((⟨0, 0, 2, 500⟩ : SrtTime).milliseconds : ℕ) : ℚ) / 1000 =
        1/2 := by norm_num
    rw [h]
    exact roundB64_eval (1/2) 4503599627370496 (1/2) (-53) (by norm_num)
      (by norm_num) (by norm_num) (by norm_num) (by norm_num)
      (by norm_num) (by norm_num [rne])
  have e3 : startTimeF ⟨0, 0, 2, 500⟩ = 5/2 := by
    unfold startTimeF
    rw [e1, e2]
    exact roundB64_eval _ 5629499534213120 (5/2) (-51) (by norm_num)
      (by norm_num) (by norm_num) (by norm_num) (by norm_num)
      (by norm_num) (by norm_num [rne])
  have e4 : roundB64 ((5/2 : ℚ) * 1000) = 2500 :=
    roundB64_eval _ 5497558138880000 2500 (-41) (by norm_num)
      (by norm_num) (by norm_num) (by norm_num) (by norm_num)
      (by norm_num) (by norm_num [rne])
  unfold delayMsOf
  rw [e3, e4]
  norm_num

/-- For every SRT-shaped timestamp (up to 500000 hours) the float delay is
the exact whole-millisecond value or exactly one below it. -/
theorem delayMsOf_bounds (t : SrtTime) (hh : t.hours ≤ 500000)
    (hmin : t.minutes ≤ 59) (hsec : t.seconds ≤ 59)
    (hms : t.milliseconds ≤ 999) :
    (totalMs t : ℤ) - 1 ≤ delayMsOf t ∧ delayMsOf t ≤ (totalMs t : ℤ) := by
  by_cases hzero : intSeconds t = 0 ∧ t.milliseconds = 0
  · have h0 : delayMsOf t = 0 := by
      unfold delayMsOf startTimeF
      rw [hzero.1, hzero.2]
      norm_num [roundB64_zero]
    have hN0 : totalMs t = 0 := by
      unfold totalMs
      rw [hzero.1, hzero.2]
    rw [h0, hN0]
    norm_num
  · have hSn_le : intSeconds t ≤ 1800003599 := by
      unfold intSeconds
      omega
    set Sq : ℚ := ((intSeconds t : ℕ) : ℚ) with hSq
    set mq : ℚ := ((t.milliseconds : ℕ) : ℚ) with hmq
    have hSq_nonneg : 0 ≤ Sq := by positivity
    have hSq_le : Sq ≤ 1800003599 := by
      rw [hSq]
      exact_mod_cast hSn_le
    have hmq_nonneg : 0 ≤ mq := by positivity
    have hmq_le : mq ≤ 999 := by
      rw [hmq]
      exact_mod_cast hms
    have h2p53 : (2 : ℚ)^53 = 9007199254740992 := by norm_num
    have hlow_const : (2 : ℚ)^(-(1100 : ℤ)) ≤ 1/2000 := by norm_num
    have hu_le : (2 : ℚ)^(-(53 : ℤ)) ≤ 1/9007199254740992 := by norm_num
    have hu_nonneg : (0 : ℚ) ≤ (2 : ℚ)^(-(53 : ℤ)) := by positivity
    have hcase : (1 : ℚ) ≤ Sq ∨ (1 : ℚ) ≤ mq := by
      rcases Nat.eq_zero_or_pos (intSeconds t) with h | h
      · right
        have hms1 : 1 ≤ t.milliseconds := by omega
        rw [hmq]
        exact_mod_cast hms1
      · left
        rw [hSq]
        exact_mod_cast h
    -- error of a := roundB64 Sq
    have ha_err : |roundB64 Sq - Sq| ≤ 1/1000000 := by
      have herr : |roundB64 Sq - Sq| ≤ Sq * (2 : ℚ)^(-(53 : ℤ)) := by
        apply roundB64_err
        · rcases Nat.eq_zero_or_pos (intSeconds t) with h | h
          · left
            rw [hSq, h]
            norm_num
          · right
            have h1 : (1 : ℚ) ≤ Sq := by rw [hSq]; exact_mod_cast h
            calc (2 : ℚ)^(-(1100 : ℤ)) ≤ 1/2000 := hlow_const
              _ ≤ 1 := by norm_num
              _ ≤ Sq := h1
        · rw [h2p53]
          linarith
      calc |roundB64 Sq - Sq| ≤ Sq * (2 : ℚ)^(-(53 : ℤ)) := herr
        _ ≤ 1800003599 * (1/9007199254740992) :=
            mul_le_mul hSq_le hu_le hu_nonneg (by norm_num)
        _ ≤ 1/1000000 := by norm_num
    set a : ℚ := roundB64 Sq with hadef
    obtain ⟨ha1, ha2⟩ := abs_le.mp ha_err
    -- error of b := roundB64 (mq / 1000)
    have hb_err : |roundB64 (mq/1000) - mq/1000| ≤ 1/1000000 := by
      have herr : |roundB64 (mq/1000) - mq/1000| ≤
          (mq/1000) * (2 : ℚ)^(-(53 : ℤ)) := by
        apply roundB64_err
        · rcases Nat.eq_zero_or_pos t.milliseconds with h | h
          · left
            rw [hmq, h]
            norm_num
          · right
            have h1 : (1 : ℚ) ≤ mq := by rw [hmq]; exact_mod_cast h
            calc (2 : ℚ)^(-(1100 : ℤ)) ≤ 1/2000 := hlow_const
              _ ≤ mq/1000 := by linarith
        · rw [h2p53]
          linarith
      calc |roundB64 (mq/1000) - mq/1000|
          ≤ (mq/1000) * (2 : ℚ)^(-(53 : ℤ)) := herr
        _ ≤ 1 * (1/9007199254740992) :=
            mul_le_mul (by linarith) hu_le hu_nonneg (by norm_num)
        _ ≤ 1/1000000 := by norm_num
    set b : ℚ := roundB64 (mq/1000) with hbdef
    obtain ⟨hb1, hb2⟩ := abs_le.mp hb_err
    -- error of c := roundB64 (a + b)
    have hsum_low : (1 : ℚ)/2000 ≤ a + b := by
      rcases hcase with h | h
      · linarith
      · linarith
    have hsum_up : a + b ≤ Sq + 2 := by linarith
    have hc_err : |roundB64 (a + b) - (a + b)| ≤ 1/1000000 := by
      have herr : |roundB64 (a + b) - (a + b)| ≤
          (a + b) * (2 : ℚ)^(-(53 : ℤ)) := by
        apply roundB64_err
        · right
          exact le_trans hlow_const hsum_low
        · rw [h2p53]
          linarith
      calc |roundB64 (a + b) - (a + b)|
          ≤ (a + b) * (2 : ℚ)^(-(53 : ℤ)) := herr
        _ ≤ 1800003601 * (1/9007199254740992) :=
            mul_le_mul (by linarith) hu_le hu_nonneg (by norm_num)
        _ ≤ 1/1000000 := by norm_num
    set c : ℚ := roundB64 (a + b) with hcdef
    obtain ⟨hc1, hc2⟩ := abs_le.mp hc_err
    -- error of ev := roundB64 (c * 1000)
    have hprod_low : (1 : ℚ)/2000 ≤ c * 1000 := by linarith
    have hprod_up : c * 1000 ≤ 1000 * Sq + 3000 := by linarith
    have he_err : |roundB64 (c * 1000) - c * 1000| ≤ 1/1000 := by
      have herr : |roundB64 (c * 1000) - c * 1000| ≤
          (c * 1000) * (2 : ℚ)^(-(53 : ℤ)) := by
        apply roundB64_err
        · right
          exact le_trans hlow_const hprod_low
        · rw [h2p53]
          linarith
      calc |roundB64 (c * 1000) - c * 1000|
          ≤ (c * 1000) * (2 : ℚ)^(-(53 : ℤ)) := herr
        _ ≤ 1800003602000 * (1/9007199254740992) :=
            mul_le_mul (by linarith) hu_le hu_nonneg (by norm_num)
        _ ≤ 1/1000 := by norm_num
    set ev : ℚ := roundB64 (c * 1000) with hevdef
    obtain ⟨he1, he2⟩ := abs_le.mp he_err
    -- the float result is within 1/2 of the exact millisecond count
    have hclose1 : 1000 * Sq + mq - 1/2 ≤ ev := by linarith
    have hclose2 : ev ≤ 1000 * Sq + mq + 1/2 := by linarith
    have hdelay : delayMsOf t = ⌊ev⌋ := rfl
    have hNq : ((totalMs t : ℕ) : ℚ) = 1000 * Sq + mq := by
      unfold totalMs
      push_cast
      rw [← hSq, ← hmq]
    constructor
    · rw [hdelay]
      apply Int.le_floor.mpr
      push_cast
      rw [hNq]
      linarith
    · rw [hdelay]
      have hlt : ⌊ev⌋ < (totalMs t : ℤ) + 1 := by
        apply Int.floor_lt.mpr
        push_cast
        rw [hNq]
        linarith
      omega

theorem padModesGo_spec :
    ∀ (n : Nat) (modes : List SubtitleMode) (last : SubtitleMode),
      modes.getLast? = some last →
      padModesGo n modes = some (modes ++ List.replicate n last) := by
  intro n
  induction n with
  | zero =>
    intro modes last _
    simp [padModesGo]
  | succ n ih =>
    intro modes last hlast
    have h2 : (modes ++ [last]).getLast? = some last :=
      List.getLast?_concat modes
    have hrec := ih (modes ++ [last]) last h2
    simp only [padModesGo, hlast]
    rw [hrec, List.append_assoc]
    simp [List.replicate_succ]

/-- Closed form of the while-loop padding for nonempty mode lists. -/
theorem padModesLoop_spec (modes : List SubtitleMode) (rc : Nat)
    (last : SubtitleMode) (hlast : modes.getLast? = some last) :
    padModesLoop modes rc =
      some (modes ++ List.replicate (rc - modes.length) last) :=
  padModesGo_spec _ modes last hlast

/-- A positional read of a mapped list ignores the defaults below the
length. -/
theorem getD_map_lt {α β : Type} (g : α → β) (l : List α) (i : Nat)
    (d1 : β) (d2 : α) (h : i < l.length) :
    (l.map g).getD i d1 = g (l.getD i d2) := by
  rw [List.getD_eq_getElem?_getD, List.getD_eq_getElem?_getD]
  rw [List.getElem?_map]
  rw [List.getElem?_eq_getElem h]
  simp

/-- A duplicate-free list whose only possible match is `0` matches at most
once. -/
theorem countP_le_one_unique (l : List Nat) (q : Nat → Bool)
    (hnd : l.Nodup) (hq : ∀ x ∈ l, q x = true → x = 0) :
    l.countP q ≤ 1 := by
  induction l with
  | nil => simp
  | cons a t ih =>
    rw [List.countP_cons]
    have hnd' := List.nodup_cons.mp hnd
    by_cases hqa : q a = true
    · have ha : a = 0 := hq a (by simp) hqa
      have ht : t.countP q = 0 := by
        rw [List.countP_eq_zero]
        intro x hx hqx
        have hx0 : x = 0 := hq x (by simp [hx]) hqx
        apply hnd'.1
        rw [ha, ← hx0]
        exact hx
      simp [hqa, ht]
    · have ht := ih hnd'.2 (fun x hx hqx => hq x (by simp [hx]) hqx)
      simp [hqa]
      omega

/-- Units contributed by iteration `i` of the main loop: the pass segment
when it rendered, then (before the last pass) the focus segment when it
rendered. -/
def passUnits (env : RenderEnv) (rc : Nat) (i : Nat) : List String :=
  (env.renderPass i).toList ++
    (if i < rc - 1 then (env.renderFocus i).toList else [])

theorem foldl_append_units (env : RenderEnv) (rc : Nat) :
    ∀ (l : List Nat) (init : List String),
      l.foldl
        (fun segs i =>
          let segs1 :=
            match env.renderPass i with
            | some p => segs ++ [p]
            | none => segs
          if i < rc - 1 then
            match env.renderFocus i with
            | some f => segs1 ++ [f]
            | none => segs1
          else segs1)
        init = init ++ (l.map (passUnits env rc)).flatten := by
  intro l
  induction l with
  | nil => intro init; simp
  | cons a t ih =>
    intro init
    rw [List.foldl_cons, ih]
    have hstep :
        (let segs1 :=
          match env.renderPass a with
          | some p => init ++ [p]
          | none => init
        if a < rc - 1 then
          match env.renderFocus a with
          | some f => segs1 ++ [f]
          | none => segs1
        else segs1) = init ++ passUnits env rc a := by
      unfold passUnits
      cases env.renderPass a <;> cases env.renderFocus a <;>
        by_cases hlt : a < rc - 1 <;>
        simp [hlt, Option.toList]
    rw [hstep]
    simp [List.append_assoc]

/-- The `segments` list is the in-order concatenation of the per-iteration
units; a failed render contributes nothing and aborts nothing. -/
theorem collectSegments_eq (env : RenderEnv) (rc : Nat) :
    collectSegments env rc =
      ((List.range rc).map (passUnits env rc)).flatten := by
  unfold collectSegments
  rw [foldl_append_units]
  simp

theorem buildOverlayClipsFrom_length :
    ∀ (cues : List Cue) (i : Nat),
      (buildOverlayClipsFrom i cues).length = cues.length := by
  intro cues
  induction cues with
  | nil => intro i; rfl
  | cons c rest ih =>
    intro i
    simp [buildOverlayClipsFrom, ih]

theorem buildOverlayClipsFrom_getD :
    ∀ (cues : List Cue) (i j : Nat), j < cues.length →
      (buildOverlayClipsFrom i cues).getD j defaultClip =
        ⟨i + j, pyStrip ((cues.getD j defaultCue).text),
          delayMsOf ((cues.getD j defaultCue).start)⟩ := by
  intro cues
  induction cues with
  | nil =>
    intro i j h
    simp at h
  | cons c rest ih =>
    intro i j h
    cases j with
    | zero => simp [buildOverlayClipsFrom]
    | succ j =>
      have hj : j < rest.length := by
        simpa using h
      have := ih (i + 1) j hj
      simp only [buildOverlayClipsFrom, List.getD_cons_succ]
      rw [this]
      have harith : i + 1 + j = i + (j + 1) := by omega
      rw [harith]

/-- Per-text idempotence of the rewrite under a well-behaved lookup. -/
def GoodLookup (tr : Lookup) : Prop :=
  tr "" = none ∧
    ∀ k v, tr k = some v →
      pyStrip v = v ∧ v ≠ "" ∧ tr v = none ∧ tr (k ++ "\n" ++ v) = none

theorem transformCueText_idem (mode : SubtitleMode) (tr : Lookup)
    (h : GoodLookup tr) (t : String) :
    transformCueText mode tr (transformCueText mode tr t) =
      transformCueText mode tr t := by
  obtain ⟨hempty, hvals⟩ := h
  cases mode with
  | no_subtitle => rfl
  | en =>
    simp only [transformCueText]
    exact pyStrip_idem t
  | ko =>
    simp only [transformCueText]
    cases htr : tr (pyStrip t) with
    | none =>
      simp only []
      rw [pyStrip_idem, htr]
    | some v =>
      obtain ⟨hv1, _, hv3, _⟩ := hvals (pyStrip t) v htr
      simp only []
      rw [hv1, hv3]
  | en_ko =>
    simp only [transformCueText]
    cases htr : tr (pyStrip t) with
    | none =>
      simp only []
      rw [pyStrip_idem, htr]
    | some v =>
      obtain ⟨hv1, hv2, _, hv4⟩ := hvals (pyStrip t) v htr
      have hne : pyStrip t ≠ "" := by
        intro hnil
        rw [hnil] at htr
        rw [hempty] at htr
        exact Option.noConfusion htr
      have hglue : pyStrip (pyStrip t ++ "\n" ++ v) =
          pyStrip t ++ "\n" ++ v :=
        pyStrip_append_middle (pyStrip t) v (pyStrip_idem t) hv1 hne hv2
      simp only []
      rw [hglue, hv4]

theorem transformCueText_ko (tr : Lookup) (t : String) :
    transformCueText SubtitleMode.ko tr t =
      (tr (pyStrip t)).getD (pyStrip t) := by
  cases htr : tr (pyStrip t) <;> simp [transformCueText, htr]

theorem transformCueText_en_ko (tr : Lookup) (t : String) :
    transformCueText SubtitleMode.en_ko tr t =
      (tr (pyStrip t)).elim (pyStrip t)
        (fun v => pyStrip t ++ "\n" ++ v) := by
  cases htr : tr (pyStrip t) <;> simp [transformCueText, htr]

theorem map_idem_of_pointwise {α : Type} (g : α → α)
    (hg : ∀ x, g (g x) = g x) (l : List α) :
    (l.map g).map g = l.map g := by
  induction l with
  | nil => rfl
  | cons x xs ih => simp [hg, ih]

/-- List-level idempotence follows from per-text idempotence, mode by
mode. -/
theorem transform_idem_of_textfix (mode : SubtitleMode) (tr : Lookup)
    (h : ∀ s, transformCueText mode tr (transformCueText mode tr s) =
      transformCueText mode tr s) (cues : List Cue) :
    transform (transform cues mode tr) mode tr =
      transform cues mode tr := by
  have hg : ∀ c : Cue,
      (fun c => { c with text := transformCueText mode tr c.text })
        ((fun c => { c with text := transformCueText mode tr c.text }) c) =
      (fun c => { c with text := transformCueText mode tr c.text }) c := by
    intro c
    cases c with
    | mk i s e t =>
      show Cue.mk i s e
          (transformCueText mode tr (transformCueText mode tr t)) =
        Cue.mk i s e (transformCueText mode tr t)
      rw [h t]
  cases mode with
  | no_subtitle => rfl
  | en => exact map_idem_of_pointwise _ hg cues
  | ko => exact map_idem_of_pointwise _ hg cues
  | en_ko => exact map_idem_of_pointwise _ hg cues

/-! ## Claim theorems -/

/-- C1 counterexample: with `repeat_count = 2`, pass 0 failing to render
and everything else succeeding, `generate_repeat_video` skips the failed
pass, concatenates only the remaining rendered units
`[focus0, pass1]`, and reports success — refuting the claim that any
per-pass render failure aborts the whole generation. -/
theorem C1_render_failure_cex :
    cexRenderEnv.renderPass 0 = none ∧
    collectSegments cexRenderEnv 2 = ["focus0.mp4", "pass1.mp4"] ∧
    generateResult cexRenderEnv 2 = true := by
  refine ⟨by decide, by decide, by decide⟩

/-- C1 amended: a failed per-pass render is skipped (it contributes no
unit); the run reports success exactly when at least one unit rendered
and concatenation succeeded, the segment list being the in-order
flattening of the per-iteration units. -/
theorem C1_failed_pass_skipped (env : RenderEnv) (rc : Nat) :
    generateResult env rc = true ↔
      ((List.range rc).map (passUnits env rc)).flatten ≠ [] ∧
        env.concatOk (((List.range rc).map (passUnits env rc)).flatten) =
          true := by
  unfold generateResult
  rw [collectSegments_eq]
  simp [Bool.and_eq_true]

/-- C2 counterexample: a cue with empty text still contributes one
overlay clip (the clip count is the cue count, not the non-empty-text
count), and at the ordinary timestamp `00:00:01,001` the binary64 delay
the code computes is 1000, not the 1001 whole milliseconds the claim
asserts. -/
theorem C2_overlay_cex :
    (buildOverlayClips [cueEmptyText]).length = 1 ∧
    ([cueEmptyText].filter (fun c => pyStrip c.text != "")).length = 0 ∧
    delayMsOf ⟨0, 0, 1, 1⟩ = 1000 ∧ totalMs ⟨0, 0, 1, 1⟩ = 1001 := by
  refine ⟨by decide, by decide, delayMs_at_1p001, by
    norm_num [totalMs, intSeconds]⟩

/-- C2 amended: the overlay plan has exactly one clip per cue (empty text
included), carrying the cue index, the stripped cue text, and the delay
`int(start_time * 1000)` computed in binary64 floats; for SRT-shaped
timestamps that delay equals the whole-millisecond start value or is
exactly one below it (never above). -/
theorem C2_overlay_delays (cues : List Cue) :
    (buildOverlayClips cues).length = cues.length ∧
    (∀ i, i < cues.length →
      (buildOverlayClips cues).getD i defaultClip =
        ⟨i, pyStrip ((cues.getD i defaultCue).text),
          delayMsOf ((cues.getD i defaultCue).start)⟩) ∧
    (∀ i, i < cues.length →
      (cues.getD i defaultCue).start.hours ≤ 500000 →
      (cues.getD i defaultCue).start.minutes ≤ 59 →
      (cues.getD i defaultCue).start.seconds ≤ 59 →
      (cues.getD i defaultCue).start.milliseconds ≤ 999 →
      (totalMs ((cues.getD i defaultCue).start) : ℤ) - 1 ≤
        ((buildOverlayClips cues).getD i defaultClip).clipDelayMs ∧
      ((buildOverlayClips cues).getD i defaultClip).clipDelayMs ≤
        (totalMs ((cues.getD i defaultCue).start) : ℤ)) := by
  refine ⟨buildOverlayClipsFrom_length cues 0, ?_, ?_⟩
  · intro i h
    rw [buildOverlayClips, buildOverlayClipsFrom_getD cues 0 i h]
    simp
  · intro i h hh hmin hsec hms
    rw [buildOverlayClips, buildOverlayClipsFrom_getD cues 0 i h]
    exact delayMsOf_bounds _ hh hmin hsec hms

/-- C2 witness: the spec's example — the cue starting at 2.5 s gets delay
2500, its exact whole-millisecond start, within the proven bounds. -/
theorem C2_overlay_delays_witness :
    (buildOverlayClips [cueAt2p5]).getD 0 defaultClip =
      ⟨0, pyStrip cueAt2p5.text, delayMsOf cueAt2p5.start⟩ ∧
    delayMsOf ⟨0, 0, 2, 500⟩ = 2500 ∧
    (totalMs ⟨0, 0, 2, 500⟩ : ℤ) - 1 ≤
      ((buildOverlayClips [cueAt2p5]).getD 0 defaultClip).clipDelayMs ∧
    ((buildOverlayClips [cueAt2p5]).getD 0 defaultClip).clipDelayMs ≤
      (totalMs ⟨0, 0, 2, 500⟩ : ℤ) := by
  have h := C2_overlay_delays [cueAt2p5]
  refine ⟨?_, delayMs_at_2p5, ?_⟩
  · exact h.2.1 0 (by decide)
  · exact h.2.2 0 (by decide) (by decide) (by decide) (by decide)
      (by decide)

/-- C3 counterexample: with lookup `a ↦ b, b ↦ c` (mode `ko`), one
application rewrites cue text `a` to `b` and a second application
rewrites `b` to `c`, so the transformer is not idempotent as claimed. -/
theorem C3_idem_cex :
    transform (transform [cueA] SubtitleMode.ko chainLookup)
        SubtitleMode.ko chainLookup ≠
      transform [cueA] SubtitleMode.ko chainLookup := by
  decide

/-- C3 amended: the transformer is idempotent for `no_subtitle` and `en`
unconditionally (for every lookup), and for every mode — in particular
`ko` and `en_ko` — whenever the lookup is well-behaved: the empty string
is not a key, and every value is already stripped, nonempty, and neither
itself a key nor part of a two-line key. -/
theorem C3_idem_per_mode (cues : List Cue) (tr : Lookup) :
    (transform (transform cues SubtitleMode.no_subtitle tr)
        SubtitleMode.no_subtitle tr =
      transform cues SubtitleMode.no_subtitle tr) ∧
    (transform (transform cues SubtitleMode.en tr) SubtitleMode.en tr =
      transform cues SubtitleMode.en tr) ∧
    (∀ mode, GoodLookup tr →
      transform (transform cues mode tr) mode tr =
        transform cues mode tr) := by
  refine ⟨rfl, ?_, ?_⟩
  · apply transform_idem_of_textfix
    intro s
    simp only [transformCueText]
    exact pyStrip_idem s
  · intro mode hG
    exact transform_idem_of_textfix mode tr
      (transformCueText_idem mode tr hG) cues

/-- C3 witness: the unconditional `en` clause holds even at the chained
lookup (which is not well-behaved), and the single-entry lookup `a ↦ b`
is well-behaved with the transformer idempotent on it in mode `en_ko`. -/
theorem C3_idem_witness :
    GoodLookup goodLookupEx ∧
    transform (transform [cueA] SubtitleMode.en chainLookup)
        SubtitleMode.en chainLookup =
      transform [cueA] SubtitleMode.en chainLookup ∧
    transform (transform [cueA] SubtitleMode.en_ko goodLookupEx)
        SubtitleMode.en_ko goodLookupEx =
      transform [cueA] SubtitleMode.en_ko goodLookupEx := by
  have hg : GoodLookup goodLookupEx := by
    constructor
    · decide
    · intro k v hkv
      by_cases hk : k = "a"
      · subst hk
        simp [goodLookupEx] at hkv
        subst hkv
        refine ⟨by decide, by decide, by decide, by decide⟩
      · simp [goodLookupEx, hk] at hkv
  exact ⟨hg, (C3_idem_per_mode [cueA] chainLookup).2.1,
    (C3_idem_per_mode [cueA] goodLookupEx).2.2 SubtitleMode.en_ko hg⟩

/-- C4 counterexample: with `repeatCount = 1` and an empty mode sequence
the padding loop raises `IndexError` (`subtitle_modes[-1]` on `[]`) and
the run fails — no plan of one `en_ko` pass is produced, refuting the
claim's empty-sequence clause. -/
theorem C4_empty_modes_cex : buildPlan 1 [] false = none := by decide

/-- C4 amended: for a nonempty mode sequence the planner yields exactly
`repeatCount` pass specs, reading the supplied mode at positions below
the sequence length and the sequence's last element beyond it; an empty
sequence fails the run instead of defaulting to `en_ko`. -/
theorem C4_plan_padding (rc : Nat) (modes : List SubtitleMode)
    (tts : Bool) (last : SubtitleMode)
    (hlast : modes.getLast? = some last) :
    ∃ p, buildPlan rc modes tts = some p ∧ p.length = rc ∧
      ∀ i, i < rc →
        (p.getD i defaultPass).passIndex = i ∧
        (p.getD i defaultPass).mode =
          (if i < modes.length then modes.getD i last else last) := by
  have hpad := padModesLoop_spec modes rc last hlast
  refine ⟨(List.range rc).map (fun i =>
      ⟨i, (modes ++ List.replicate (rc - modes.length) last).getD i
        SubtitleMode.en_ko, synthFlag tts i⟩), ?_, ?_, ?_⟩
  · unfold buildPlan
    rw [hpad]
    rfl
  · simp
  · intro i hi
    have hrange : i < (List.range rc).length := by simpa using hi
    rw [getD_map_lt _ (List.range rc) i defaultPass 0 hrange]
    have hri : (List.range rc).getD i 0 = i := by
      rw [List.getD_eq_getElem?_getD, List.getElem?_range hi]
      rfl
    rw [hri]
    refine ⟨rfl, ?_⟩
    show (modes ++ List.replicate (rc - modes.length) last).getD i
        SubtitleMode.en_ko =
      (if i < modes.length then modes.getD i last else last)
    by_cases him : i < modes.length
    · rw [List.getD_eq_getElem?_getD, List.getElem?_append_left him,
        List.getElem?_eq_getElem him, if_pos him,
        List.getD_eq_getElem?_getD, List.getElem?_eq_getElem him]
      rfl
    · have hle : modes.length ≤ i := Nat.le_of_not_lt him
      have hrep : i - modes.length < rc - modes.length := by omega
      rw [List.getD_eq_getElem?_getD, List.getElem?_append_right hle,
        List.getElem?_replicate_of_lt hrep, if_neg him]
      rfl

/-- C4 witness: the spec's own example `plan(5, [A, B])` — five passes,
positions 2..4 carrying the last supplied mode. -/
theorem C4_plan_padding_witness :
    [SubtitleMode.no_subtitle, SubtitleMode.en].getLast? =
      some SubtitleMode.en ∧
    ∃ p, buildPlan 5 [SubtitleMode.no_subtitle, SubtitleMode.en] false =
        some p ∧ p.length = 5 ∧
      ∀ i, i < 5 →
        (p.getD i defaultPass).passIndex = i ∧
        (p.getD i defaultPass).mode =
          (if i < [SubtitleMode.no_subtitle, SubtitleMode.en].length then
            [SubtitleMode.no_subtitle, SubtitleMode.en].getD i
              SubtitleMode.en
          else SubtitleMode.en) :=
  ⟨by decide,
    C4_plan_padding 5 [SubtitleMode.no_subtitle, SubtitleMode.en] false
      SubtitleMode.en (by decide)⟩

/-- C5: in every produced plan at most one pass synthesizes audio; a pass
that synthesizes audio is pass 0; and every pass's flag equals "index is
0 and a TTS provider is configured", independently of its mode. -/
theorem C5_synth_first_pass_only (rc : Nat) (modes : List SubtitleMode)
    (tts : Bool) (p : List PassSpec)
    (hp : buildPlan rc modes tts = some p) :
    p.countP (fun s => s.synthesizeAudio) ≤ 1 ∧
    (∀ s ∈ p, s.synthesizeAudio = true → s.passIndex = 0) ∧
    (∀ s ∈ p, s.synthesizeAudio = (decide (s.passIndex = 0) && tts)) := by
  unfold buildPlan at hp
  obtain ⟨padded, _, hmap⟩ := Option.map_eq_some'.mp hp
  subst hmap
  refine ⟨?_, ?_, ?_⟩
  · rw [List.countP_map]
    apply countP_le_one_unique (List.range rc) _ (List.nodup_range rc)
    intro x _ hqx
    have hx : synthFlag tts x = true := hqx
    unfold synthFlag at hx
    have := (Bool.and_eq_true _ _).mp hx
    exact of_decide_eq_true this.1
  · intro s hs htrue
    obtain ⟨i, _, rfl⟩ := List.mem_map.mp hs
    have hx : synthFlag tts i = true := htrue
    unfold synthFlag at hx
    have := (Bool.and_eq_true _ _).mp hx
    exact of_decide_eq_true this.1
  · intro s hs
    obtain ⟨i, _, rfl⟩ := List.mem_map.mp hs
    rfl

/-- C5 witness: the two-pass plan with a configured provider synthesizes
audio exactly on pass 0. -/
theorem C5_synth_witness :
    buildPlan 2 [SubtitleMode.en] true =
      some [⟨0, SubtitleMode.en, true⟩, ⟨1, SubtitleMode.en, false⟩] ∧
    ([(⟨0, SubtitleMode.en, true⟩ : PassSpec),
        ⟨1, SubtitleMode.en, false⟩].countP
      (fun s => s.synthesizeAudio) ≤ 1 ∧
    (∀ s ∈ [(⟨0, SubtitleMode.en, true⟩ : PassSpec),
        ⟨1, SubtitleMode.en, false⟩],
      s.synthesizeAudio = true → s.passIndex = 0) ∧
    (∀ s ∈ [(⟨0, SubtitleMode.en, true⟩ : PassSpec),
        ⟨1, SubtitleMode.en, false⟩],
      s.synthesizeAudio = (decide (s.passIndex = 0) && true))) :=
  ⟨by decide,
    C5_synth_first_pass_only 2 [SubtitleMode.en] true
      [⟨0, SubtitleMode.en, true⟩, ⟨1, SubtitleMode.en, false⟩]
      (by decide)⟩

/-- C6 counterexample: with no lookup entry, mode `ko` rewrites `" hi "`
to the stripped `"hi"` (not the source text unchanged), and a
whitespace-only cue becomes an empty line — refuting the fallback and
never-empty clauses. -/
theorem C6_fallback_cex :
    ((transform [cueWs] SubtitleMode.ko noLookup).getD 0 defaultCue).text ≠
      " hi " ∧
    ((transform [cueSp] SubtitleMode.ko noLookup).getD 0 defaultCue).text =
      "" := by
  refine ⟨by decide, by decide⟩

/-- C6 amended: `no_subtitle` yields the empty cue list; `ko` yields the
lookup translation of the trimmed source when present, else the trimmed
(not the unchanged) source — empty exactly for whitespace-only sources;
`en_ko` yields trimmed-source + newline + translation when present, else
the trimmed source alone. -/
theorem C6_per_mode_output (cues : List Cue) (tr : Lookup) :
    transform cues SubtitleMode.no_subtitle tr = [] ∧
    (∀ i, i < cues.length →
      ((transform cues SubtitleMode.ko tr).getD i defaultCue).text =
        (tr (pyStrip ((cues.getD i defaultCue).text))).getD
          (pyStrip ((cues.getD i defaultCue).text))) ∧
    (∀ i, i < cues.length →
      ((transform cues SubtitleMode.en_ko tr).getD i defaultCue).text =
        (tr (pyStrip ((cues.getD i defaultCue).text))).elim
          (pyStrip ((cues.getD i defaultCue).text))
          (fun v => pyStrip ((cues.getD i defaultCue).text) ++ "\n" ++ v)) := by
  refine ⟨rfl, ?_, ?_⟩
  · intro i h
    rw [show transform cues SubtitleMode.ko tr =
        cues.map (fun c =>
          { c with text := transformCueText SubtitleMode.ko tr c.text })
      from rfl]
    rw [getD_map_lt _ cues i defaultCue defaultCue h]
    exact transformCueText_ko tr ((cues.getD i defaultCue).text)
  · intro i h
    rw [show transform cues SubtitleMode.en_ko tr =
        cues.map (fun c =>
          { c with text := transformCueText SubtitleMode.en_ko tr c.text })
      from rfl]
    rw [getD_map_lt _ cues i defaultCue defaultCue h]
    exact transformCueText_en_ko tr ((cues.getD i defaultCue).text)

/-- C6 witness: the amended description applied to the whitespace-padded
cue with no lookup. -/
theorem C6_per_mode_output_witness :
    transform [cueWs] SubtitleMode.no_subtitle noLookup = [] ∧
    ((transform [cueWs] SubtitleMode.ko noLookup).getD 0 defaultCue).text =
      (noLookup (pyStrip (([cueWs].getD 0 defaultCue).text))).getD
        (pyStrip (([cueWs].getD 0 defaultCue).text)) :=
  ⟨(C6_per_mode_output [cueWs] noLookup).1,
    (C6_per_mode_output [cueWs] noLookup).2.1 0 (by decide)⟩

/-- C7: the concatenation manifest has one line per rendered unit and its
`i`-th line names exactly the `i`-th unit's path — order preserved. -/
theorem C7_manifest_order (segments : List String) :
    (concatManifest segments).length = segments.length ∧
    ∀ i, i < segments.length →
      (concatManifest segments).getD i "" =
        manifestLine (segments.getD i "") := by
  constructor
  · simp [concatManifest]
  · intro i h
    unfold concatManifest
    exact getD_map_lt manifestLine segments i "" "" h

/-- C7 witness: the spec's example `[P0, I0, P1, I1, P2]` — line 2 names
`P1`. -/
theorem C7_manifest_order_witness :
    (concatManifest ["P0", "I0", "P1", "I1", "P2"]).length =
      ["P0", "I0", "P1", "I1", "P2"].length ∧
    (concatManifest ["P0", "I0", "P1", "I1", "P2"]).getD 2 "" =
      manifestLine "P1" :=
  ⟨(C7_manifest_order ["P0", "I0", "P1", "I1", "P2"]).1,
    (C7_manifest_order ["P0", "I0", "P1", "I1", "P2"]).2 2 (by decide)⟩

/-- C8: the modules-variant `_generate_edge_tts` creates `silent.wav`
(and the per-cue segment wavs) without registering them in
`self.temp_files`, so the claim's "every temp file is registered at
creation time" fails on this code path. -/
theorem C8_unregistered_temp_file :
    edgeTtsAllRegistered 1 = false ∧
    ("silent.wav", false) ∈ edgeTtsTempFiles 1 := by
  refine ⟨by decide, by decide⟩

/-- C9 counterexample: with no configured message list, pass index 2 gets
the third message of the 4-message default (`config.get` default), not a
member of the claimed 2-message cycle. -/
theorem C9_default_cycle_cex :
    focusMessage none 2 = "따라 말해보세요!" ∧
    focusMessage none 2 ≠ focusMessageModules 2 := by
  refine ⟨by decide, by decide⟩

/-- C9 amended: a configured nonempty list is indexed by
`passIndex mod messageCount`; an unconfigured list falls back to the
4-message default cycle (mod 4); only an explicitly empty configured list
reaches the 2-message alternation; the clip duration is fixed at 2 s. -/
theorem C9_focus_message_selection (cfg : Option (List String)) (i : Nat) :
    (cfg = none →
      focusMessage cfg i = defaultFocusMessages.getD (i % 4) "") ∧
    (∀ msgs, cfg = some msgs → msgs ≠ [] →
      focusMessage cfg i = msgs.getD (i % msgs.length) "") ∧
    (cfg = some [] → focusMessage cfg i = focusMessageModules i) ∧
    focusClipDurationSeconds = 2 := by
  refine ⟨?_, ?_, ?_, rfl⟩
  · intro hc
    subst hc
    simp [focusMessage, defaultFocusMessages]
  · intro msgs hc hne
    subst hc
    simp [focusMessage, hne]
  · intro hc
    subst hc
    simp [focusMessage]

/-- C9 witness: the selection rule applied to an unconfigured list at
pass index 2. -/
theorem C9_focus_message_witness :
    focusMessage none 2 = defaultFocusMessages.getD (2 % 4) "" ∧
    focusClipDurationSeconds = 2 :=
  ⟨(C9_focus_message_selection none 2).1 rfl,
    (C9_focus_message_selection none 2).2.2.2⟩

/-- C10 counterexample: with an empty configured `subtitle_mode` list and
`repeat_count = 2`, the padding crashes before appending anything, so
after the call the configured list still has length 0 < 2 — refuting the
claim's universal "after the call the entry has length ≥ repeatCount". -/
theorem C10_empty_modes_cex :
    cfgEmptyModes.repeat_count = 2 ∧
    (planningUpdate cfgEmptyModes).subtitle_mode = [] := by
  refine ⟨by decide, by decide⟩

/-- C10 amended: for a nonempty configured list, planning pads the shared
`subtitle_mode` entry in place to length ≥ `repeat_count` by appending
copies of its last element, and modifies no other configuration field. -/
theorem C10_planning_frame (c : GeneratorConfig) (last : SubtitleMode)
    (hlast : c.subtitle_mode.getLast? = some last) :
    c.repeat_count ≤ (planningUpdate c).subtitle_mode.length ∧
    (planningUpdate c).subtitle_mode =
      c.subtitle_mode ++
        List.replicate (c.repeat_count - c.subtitle_mode.length) last ∧
    (planningUpdate c).repeat_count = c.repeat_count ∧
    (planningUpdate c).subtitle_style = c.subtitle_style ∧
    (planningUpdate c).tts_provider = c.tts_provider := by
  have hpad :=
    padModesLoop_spec c.subtitle_mode c.repeat_count last hlast
  unfold planningUpdate
  rw [hpad]
  refine ⟨?_, rfl, rfl, rfl, rfl⟩
  simp
  omega

/-- C10 witness: the padding and frame conditions at a concrete short
nonempty configuration. -/
theorem C10_planning_frame_witness :
    cfgShortModes.subtitle_mode.getLast? = some SubtitleMode.en_ko ∧
    (cfgShortModes.repeat_count ≤
        (planningUpdate cfgShortModes).subtitle_mode.length ∧
      (planningUpdate cfgShortModes).subtitle_mode =
        cfgShortModes.subtitle_mode ++
          List.replicate
            (cfgShortModes.repeat_count -
              cfgShortModes.subtitle_mode.length) SubtitleMode.en_ko ∧
      (planningUpdate cfgShortModes).repeat_count =
        cfgShortModes.repeat_count ∧
      (planningUpdate cfgShortModes).subtitle_style =
        cfgShortModes.subtitle_style ∧
      (planningUpdate cfgShortModes).tts_provider =
        cfgShortModes.tts_provider) :=
  ⟨by decide,
    C10_planning_frame cfgShortModes SubtitleMode.en_ko (by decide)⟩

end YtShadowing
